import Mathlib

/-!
Verification of the jailbreak-classifier training pipeline
(`scripts/training/train.py`) against its design specification.

The pipeline is embedded shallowly over `ℚ` (floating-point numbers are
idealised as rationals):

* dataset assembly (`train.py` lines 188-189),
* threshold calibration via the scikit-learn function `precision_recall_curve`
  followed by F1 maximisation (lines 227-232),
* the default-cutoff accuracy recorded in the metadata (lines 219, 269),
* the metadata record (lines 264-271),
* the export / warning / smoke-test event sequence (lines 236-304),
* the stratified train/test split allocation (lines 205-207).

Library calls (`precision_recall_curve`, `np.argmax`, `train_test_split`,
`accuracy_score`, `classifier.predict`) are modelled from their documented
scikit-learn / NumPy semantics, since their code is not part of this
repository.
-/

namespace AIGuard

/-! ### Corpus assembly (train.py lines 188-189) -/

/-- Texts of the assembled dataset: `texts = JAILBREAK_PROMPTS + SAFE_PROMPTS`
(adversarial corpus first, then benign corpus). -/
def assembleTexts (jail safe : List String) : List String := jail ++ safe

/-- Labels of the assembled dataset:
`labels = [1] * len(JAILBREAK_PROMPTS) + [0] * len(SAFE_PROMPTS)`. -/
def assembleLabels (jail safe : List String) : List Nat :=
  List.replicate jail.length 1 ++ List.replicate safe.length 0

/-- Downstream precondition of the Trainer (spec section 4.3): a binary fit
needs both labels present in the data.  The Corpus stage itself never checks
this. -/
def hasBothLabels (labels : List Nat) : Prop := 1 ∈ labels ∧ 0 ∈ labels

/-! ### Threshold calibration (train.py lines 227-232)

`sklearn.metrics.precision_recall_curve` sorts the scores in decreasing
order (a stable mergesort; the curve only depends on the multiset of
(label, score) pairs, so any sort by score is equivalent), walks the sorted
list accumulating true-positive / false-positive counts, and records one
point per distinct score value.  It then truncates the curve at the first
point attaining full recall (`last_ind = tps.searchsorted(tps[-1])`),
reverses it so thresholds increase, and appends the endpoint
(precision, recall) = (1, 0) which has no associated threshold. -/

/-- One point of the classification curve: cumulative true positives,
cumulative false positives, and the score cutoff it belongs to. -/
structure CurvePoint where
  tp : Nat
  fp : Nat
  thr : ℚ
deriving DecidableEq

/-- Stable descending insertion by score (ties keep their relative order). -/
def insertDesc (p : Nat × ℚ) : List (Nat × ℚ) → List (Nat × ℚ)
  | [] => [p]
  | q :: rest => if q.2 < p.2 then p :: q :: rest else q :: insertDesc p rest

/-- Sort (label, score) pairs by decreasing score. -/
def sortDesc : List (Nat × ℚ) → List (Nat × ℚ)
  | [] => []
  | p :: rest => insertDesc p (sortDesc rest)

/-- Cumulative tp/fp counts of a descending-sorted (label, score) list,
recording one `CurvePoint` per distinct score value (at the last element of
each group of equal scores), as in the sklearn function `_binary_clf_curve`. -/
def clfCurveAux : Nat → Nat → List (Nat × ℚ) → List CurvePoint
  | _, _, [] => []
  | tp, fp, [(y, s)] =>
      [⟨tp + (if y = 1 then 1 else 0), fp + (if y = 1 then 0 else 1), s⟩]
  | tp, fp, (y, s) :: (y2, s2) :: rest =>
      let tp2 := tp + (if y = 1 then 1 else 0)
      let fp2 := fp + (if y = 1 then 0 else 1)
      if s2 = s then clfCurveAux tp2 fp2 ((y2, s2) :: rest)
      else ⟨tp2, fp2, s⟩ :: clfCurveAux tp2 fp2 ((y2, s2) :: rest)

/-- Model of `sklearn.metrics.precision_recall_curve(y_true, y_prob)`
(positive label 1).  Returns `(precision, recall, thresholds)`;
`precision` and `recall` have one more entry than `thresholds`
(the appended (1, 0) endpoint). -/
def precisionRecallCurve (yTrue : List Nat) (yProb : List ℚ) :
    List ℚ × List ℚ × List ℚ :=
  let pairs := sortDesc (yTrue.zip yProb)
  let curve := clfCurveAux 0 0 pairs
  let tpTotal := (curve.getLast?.map (fun c => c.tp)).getD 0
  let lastInd := curve.findIdx (fun c => decide (tpTotal ≤ c.tp))
  let kept := (curve.take (lastInd + 1)).reverse
  let precs := kept.map (fun c => (c.tp : ℚ) / ((c.tp : ℚ) + (c.fp : ℚ))) ++ [1]
  let recs :=
    kept.map (fun c => if tpTotal = 0 then 1 else (c.tp : ℚ) / (tpTotal : ℚ)) ++ [0]
  let thresholds := kept.map (fun c => c.thr)
  (precs, recs, thresholds)

/-- `f1_scores = 2 * (precision * recall) / (precision + recall + 1e-8)`
(train.py line 230), elementwise. -/
def f1Scores (precs recs : List ℚ) : List ℚ :=
  List.zipWith (fun p r => 2 * (p * r) / (p + r + 1 / 100000000)) precs recs

/-- Model of `np.argmax`: index of the first occurrence of the maximum
(0 for an empty list). -/
def argmaxIdx : List ℚ → Nat
  | [] => 0
  | [_] => 0
  | x :: y :: rest =>
      let j := argmaxIdx (y :: rest)
      if (y :: rest).getD j 0 ≤ x then 0 else j + 1

/-- Threshold calibration (train.py lines 228-232):
`optimal_threshold = thresholds[optimal_idx] if optimal_idx < len(thresholds) else 0.5`. -/
def calibratedThreshold (yTrue : List Nat) (yProb : List ℚ) : ℚ :=
  let prt := precisionRecallCurve yTrue yProb
  let f1 := f1Scores prt.1 prt.2.1
  let idx := argmaxIdx f1
  if idx < prt.2.2.length then prt.2.2.getD idx 0 else 1 / 2

/-! ### Predictions and accuracy (train.py lines 219-222, 269)

For a binary `LogisticRegression`, `classifier.predict(x)` returns class 1
exactly when the decision function is positive, i.e. when the predicted
probability of class 1 exceeds 1/2.  `accuracy_score` is the fraction of
positions where prediction and truth agree. -/

/-- Thresholded decision rule: class 1 iff `thr < p`. -/
def predictAt (thr : ℚ) (yProb : List ℚ) : List Nat :=
  yProb.map (fun p => if thr < p then 1 else 0)

/-- Model of `classifier.predict` on the test probabilities: the built-in
0.5 cutoff. -/
def predictDefault (yProb : List ℚ) : List Nat :=
  yProb.map (fun p => if 1 / 2 < p then 1 else 0)

/-- Model of `sklearn.metrics.accuracy_score(y_true, y_pred)`. -/
def accuracyScore (yTrue yPred : List Nat) : ℚ :=
  (((yTrue.zip yPred).countP (fun ab => ab.1 == ab.2) : Nat) : ℚ) / (yTrue.length : ℚ)

/-- The accuracy value the pipeline stores in `metadata.json`
(train.py lines 219 and 269): `accuracy_score(y_test, classifier.predict(X_test))`. -/
def recordedAccuracy (yTest : List Nat) (yProb : List ℚ) : ℚ :=
  accuracyScore yTest (predictDefault yProb)

/-! ### Metadata record (train.py lines 264-271) -/

/-- JSON-like values appearing in the metadata record. -/
inductive JVal where
  | num (q : ℚ)
  | str (s : String)
  | int (n : Nat)
  | strList (l : List String)
deriving DecidableEq

/-- The `metadata` dictionary written to `metadata.json`, with its fields in
source order. -/
def metadataRecord (thr : ℚ) (nSamples : Nat) (acc : ℚ) : List (String × JVal) :=
  [("threshold", JVal.num thr),
   ("embedding_model", JVal.str "all-MiniLM-L6-v2"),
   ("embedding_dim", JVal.int 384),
   ("training_samples", JVal.int nSamples),
   ("accuracy", JVal.num acc),
   ("classes", JVal.strList ["safe", "jailbreak"])]

/-! ### Export, size warning, metadata write and smoke test
(train.py lines 236-304), modelled as the sequence of externally visible
effects of the run. -/

/-- Externally visible effects of the tail of the run. -/
inductive Event where
  | saveFile (name : String)
  | warnSize
  | printLine (s : String)
deriving DecidableEq

/-- Smoke-test verdict for one example
(train.py line 296: `"BLOCKED" if prob > optimal_threshold else "SAFE"`). -/
def smokeStatus (prob thr : ℚ) : String :=
  if thr < prob then "BLOCKED" else "SAFE"

/-- Effect sequence of train.py lines 236-304: save the ONNX artifact, warn
iff its size exceeds 50 KiB, save `metadata.json`, print one smoke-test
verdict per canonical example, and print the completion banner. -/
def runEvents (onnxSize : Nat) (smokeProbs : List ℚ) (thr : ℚ) : List Event :=
  [Event.saveFile "classifier.onnx"]
    ++ (if 50 * 1024 < onnxSize then [Event.warnSize]
        else [Event.printLine "Model size is under 50KB target"])
    ++ [Event.saveFile "metadata.json"]
    ++ smokeProbs.map (fun p => Event.printLine (smokeStatus p thr))
    ++ [Event.printLine "TRAINING COMPLETE"]

/-- Files persisted by an event sequence. -/
def savedFiles (events : List Event) : List String :=
  events.filterMap (fun e =>
    match e with
    | Event.saveFile n => some n
    | _ => none)

/-! ### Stratified train/test split (train.py lines 205-207)

`train_test_split(..., test_size=0.2, random_state=42, stratify=labels)`
uses `StratifiedShuffleSplit`: with `n` samples it draws
`n_test = ceil(0.2 * n)` test and `n_train = n - n_test` train samples, and
allocates the train draw across the two classes with the sklearn helper
`_approximate_mode`: each class receives the floor of its proportional
share `c_i * n_train / n`, and the leftover draws are distributed, one
each, among classes with the largest fractional parts (never exceeding the
class size).  The test side then receives exactly the remaining members of
each class.  `approxModeAlloc` captures every allocation `_approximate_mode`
can return, abstracting only the RNG tie-break among equal fractional
parts. -/

/-- `ceil(0.2 * n)`: the test-subset size. -/
def nTestOf (n : Nat) : Nat := (n + 4) / 5

/-- `n - n_test`: the train-subset size. -/
def nTrainOf (n : Nat) : Nat := n - nTestOf n

/-- Possible per-class train allocations `(a0, a1)` of `d` draws over class
sizes `(c0, c1)`, as produced by the sklearn helper `_approximate_mode`. -/
def approxModeAlloc (c0 c1 d a0 a1 : Nat) : Prop :=
  a0 + a1 = d ∧
  c0 * d / (c0 + c1) ≤ a0 ∧ a0 ≤ c0 * d / (c0 + c1) + 1 ∧ a0 ≤ c0 ∧
  c1 * d / (c0 + c1) ≤ a1 ∧ a1 ≤ c1 * d / (c0 + c1) + 1 ∧ a1 ≤ c1

/-! ### Whole-run determinism (train.py lines 205-232)

Every random choice in the pipeline is driven by the fixed seed
(`random_state=42` in both `train_test_split` and `LogisticRegression`), so
the split, the fitted coefficients and the probability scores are functions
of (corpus, seed, embeddings).  The split, the optimiser and the
probability map of the fitted model are abstracted as explicit function
parameters; a run is any record satisfying the data-flow equations of
`main`. -/

/-- Fitted `LogisticRegression` parameters (coefficient vector and
intercept). -/
structure LRParams where
  weights : List ℚ
  bias : ℚ
deriving DecidableEq

/-- The two exported quantities claim C9 is about. -/
structure RunOutputs where
  threshold : ℚ
  params : LRParams
deriving DecidableEq

/-- Data-flow relation of `main` from the split onwards: `out` is a
possible result of running the pipeline on corpora `jail`, `safe` with
embedder `embed` and seed `seed`, where `splitFn` is the seeded splitter
(train/test index lists), `fitFn` the seeded trainer and `probFn` the
probability function of a fitted model. -/
def RunSpec (splitFn : Nat → List Nat → List Nat × List Nat)
    (fitFn : Nat → List (List ℚ) → List Nat → LRParams)
    (probFn : LRParams → List ℚ → ℚ)
    (jail safe : List String) (seed : Nat) (embed : String → List ℚ)
    (out : RunOutputs) : Prop :=
  let texts := assembleTexts jail safe
  let labels := assembleLabels jail safe
  let embs := texts.map embed
  let idxs := splitFn seed labels
  let xTrain := idxs.1.map (fun i => embs.getD i [])
  let yTrain := idxs.1.map (fun i => labels.getD i 0)
  let xTest := idxs.2.map (fun i => embs.getD i [])
  let yTest := idxs.2.map (fun i => labels.getD i 0)
  let model := fitFn seed xTrain yTrain
  let yProb := xTest.map (probFn model)
  out.params = model ∧ out.threshold = calibratedThreshold yTest yProb

/-! ## Helper lemmas -/

theorem getD_replicate_of_lt {n i d a : Nat} (h : i < n) :
    (List.replicate n a).getD i d = a := by
  rw [List.getD_eq_getElem _ _ (by simpa using h)]
  simp

theorem assembleLabels_getD_left (jail safe : List String) {i : Nat}
    (h : i < jail.length) (d : Nat) :
    (assembleLabels jail safe).getD i d = 1 := by
  unfold assembleLabels
  rw [List.getD_append _ _ _ _ (by simpa using h)]
  exact getD_replicate_of_lt h

theorem assembleLabels_getD_right (jail safe : List String) {i : Nat}
    (h1 : jail.length ≤ i) (h2 : i < jail.length + safe.length) (d : Nat) :
    (assembleLabels jail safe).getD i d = 0 := by
  unfold assembleLabels
  rw [List.getD_append_right _ _ _ _ (by simpa using h1)]
  exact getD_replicate_of_lt (by simp; omega)

theorem savedFiles_append (l1 l2 : List Event) :
    savedFiles (l1 ++ l2) = savedFiles l1 ++ savedFiles l2 := by
  simp [savedFiles]

theorem savedFiles_smoke (thr : ℚ) (probs : List ℚ) :
    savedFiles (probs.map (fun p => Event.printLine (smokeStatus p thr))) = [] := by
  induction probs with
  | nil => rfl
  | cons p ps ih => simp [savedFiles, List.filterMap_cons] at ih ⊢

theorem savedFiles_runEvents (size : Nat) (probs : List ℚ) (thr : ℚ) :
    savedFiles (runEvents size probs thr) = ["classifier.onnx", "metadata.json"] := by
  unfold runEvents
  rw [savedFiles_append, savedFiles_append, savedFiles_append, savedFiles_append,
    savedFiles_smoke]
  split <;> rfl

theorem getD_le_argmax (l : List ℚ) :
    ∀ i, i < l.length → l.getD i 0 ≤ l.getD (argmaxIdx l) 0 := by
  induction l with
  | nil => intro i hi; simp at hi
  | cons x xs ih =>
    cases xs with
    | nil =>
      intro i hi
      have : i = 0 := by simpa using hi
      subst this
      exact le_refl _
    | cons y rest =>
      intro i hi
      have hun : argmaxIdx (x :: y :: rest) =
          if (y :: rest).getD (argmaxIdx (y :: rest)) 0 ≤ x then 0
          else argmaxIdx (y :: rest) + 1 := rfl
      rw [hun]
      split
      case isTrue h =>
        cases i with
        | zero => simp
        | succ j =>
          have hj : j < (y :: rest).length := by simpa using hi
          calc (x :: y :: rest).getD (j + 1) 0 = (y :: rest).getD j 0 := by
                simp [List.getD_cons_succ]
          _ ≤ (y :: rest).getD (argmaxIdx (y :: rest)) 0 := ih j hj
          _ ≤ x := h
          _ = (x :: y :: rest).getD 0 0 := by simp
      case isFalse h =>
        push_neg at h
        cases i with
        | zero =>
          simp only [List.getD_cons_zero, List.getD_cons_succ]
          exact le_of_lt h
        | succ j =>
          have hj : j < (y :: rest).length := by simpa using hi
          simp only [List.getD_cons_succ]
          exact ih j hj

theorem mem_insertDesc (p q : Nat × ℚ) (l : List (Nat × ℚ)) :
    q ∈ insertDesc p l ↔ q = p ∨ q ∈ l := by
  induction l with
  | nil => simp [insertDesc]
  | cons r rest ih =>
    unfold insertDesc
    split
    · simp only [List.mem_cons]
    · simp only [List.mem_cons, ih]
      tauto

theorem mem_sortDesc (l : List (Nat × ℚ)) (q : Nat × ℚ) :
    q ∈ sortDesc l ↔ q ∈ l := by
  induction l with
  | nil => simp [sortDesc]
  | cons p rest ih =>
    simp [sortDesc, mem_insertDesc, ih, List.mem_cons]

theorem thr_mem_clfCurveAux (l : List (Nat × ℚ)) :
    ∀ tp fp c, c ∈ clfCurveAux tp fp l → c.thr ∈ l.map Prod.snd := by
  induction l with
  | nil => intro tp fp c hc; simp [clfCurveAux] at hc
  | cons p tl ih =>
    intro tp fp c hc
    obtain ⟨y, s⟩ := p
    cases tl with
    | nil =>
      simp [clfCurveAux] at hc
      simp [hc]
    | cons q tl2 =>
      obtain ⟨y2, s2⟩ := q
      simp only [clfCurveAux] at hc
      split at hc
      · have := ih _ _ _ hc
        simpa using Or.inr (by simpa using this)
      · rcases List.mem_cons.mp hc with hc1 | hc2
        · subst hc1
          simp
        · have := ih _ _ _ hc2
          simpa using Or.inr (by simpa using this)

theorem thresholds_mem (yTrue : List Nat) (yProb : List ℚ) :
    ∀ t ∈ (precisionRecallCurve yTrue yProb).2.2, t ∈ yProb := by
  intro t ht
  simp only [precisionRecallCurve] at ht
  rw [List.mem_map] at ht
  obtain ⟨c, hc, hthr⟩ := ht
  rw [List.mem_reverse] at hc
  have hc2 := List.mem_of_mem_take hc
  have h3 := thr_mem_clfCurveAux _ _ _ _ hc2
  rw [List.mem_map] at h3
  obtain ⟨pq, hpq, hsnd⟩ := h3
  rw [mem_sortDesc] at hpq
  have hy := (List.of_mem_zip hpq).2
  rw [← hthr, ← hsnd]
  exact hy

theorem f1Scores_getD (P R : List ℚ) (i : Nat) (h : i < (f1Scores P R).length) :
    (f1Scores P R).getD i 0 =
      2 * (P.getD i 0 * R.getD i 0) / (P.getD i 0 + R.getD i 0 + 1 / 100000000) := by
  have hlen : i < P.length ∧ i < R.length := by
    unfold f1Scores at h
    simp at h
    omega
  rw [List.getD_eq_getElem _ _ h, List.getD_eq_getElem _ _ hlen.1,
    List.getD_eq_getElem _ _ hlen.2]
  simp [f1Scores, List.getElem_zipWith]

/-! ## Claims -/

/-- Claim C3: for every pair of non-empty corpora, the assembled dataset is
the adversarial corpus followed by the benign corpus, adversarial entries
labeled 1 and benign entries labeled 0; its size is the sum of the corpus
sizes and the per-label counts equal the corpus sizes exactly. -/
theorem dataset_assembly_correct (jail safe : List String)
    (_hj : jail ≠ []) (_hs : safe ≠ []) :
    assembleTexts jail safe = jail ++ safe ∧
    (assembleTexts jail safe).length = jail.length + safe.length ∧
    (assembleLabels jail safe).length = jail.length + safe.length ∧
    (∀ i, i < jail.length → (assembleLabels jail safe).getD i 2 = 1) ∧
    (∀ i, jail.length ≤ i → i < jail.length + safe.length →
      (assembleLabels jail safe).getD i 2 = 0) ∧
    (assembleLabels jail safe).count 1 = jail.length ∧
    (assembleLabels jail safe).count 0 = safe.length := by
  refine ⟨rfl, by simp [assembleTexts], by simp [assembleLabels], ?_, ?_, ?_, ?_⟩
  · intro i hi; exact assembleLabels_getD_left jail safe hi 2
  · intro i hi1 hi2; exact assembleLabels_getD_right jail safe hi1 hi2 2
  · simp [assembleLabels, List.count_append, List.count_replicate]
  · simp [assembleLabels, List.count_append, List.count_replicate]

/-- Witness for C3 at the concrete corpora `["a"]`, `["b"]`. -/
theorem dataset_assembly_correct_witness :
    (assembleLabels ["a"] ["b"]).count 1 = 1 ∧
    (assembleLabels ["a"] ["b"]).getD 0 2 = 1 :=
  ⟨(dataset_assembly_correct ["a"] ["b"] (by simp) (by simp)).2.2.2.2.2.1,
   (dataset_assembly_correct ["a"] ["b"] (by simp) (by simp)).2.2.2.1 0 (by simp)⟩

/-- Claim C10: the Corpus stage concatenates the two corpora unconditionally
and performs no non-emptiness or both-labels validation: with an empty
corpus the dataset is still assembled, and only the downstream two-class
training precondition (`hasBothLabels`) fails. -/
theorem corpus_stage_no_validation (jail safe : List String) :
    assembleTexts jail safe = jail ++ safe ∧
    (assembleTexts jail safe).length = jail.length + safe.length ∧
    assembleTexts [] safe = safe ∧
    assembleLabels [] safe = List.replicate safe.length 0 ∧
    assembleTexts jail [] = jail ∧
    ¬hasBothLabels (assembleLabels [] safe) ∧
    ¬hasBothLabels (assembleLabels jail []) := by
  refine ⟨rfl, by simp [assembleTexts], by simp [assembleTexts],
    by simp [assembleLabels], by simp [assembleTexts], ?_, ?_⟩
  · rintro ⟨h1, -⟩
    simp [assembleLabels, List.mem_replicate] at h1
  · rintro ⟨-, h0⟩
    simp [assembleLabels, List.mem_replicate] at h0

/-- Witness for C10 at the concrete benign corpus `["b"]` with an empty
adversarial corpus. -/
theorem corpus_stage_no_validation_witness :
    assembleTexts [] ["b"] = ["b"] :=
  (corpus_stage_no_validation ["a"] ["b"]).2.2.1

/-- Claim C4: the metadata record has exactly the fields `threshold`,
`embedding_model`, `embedding_dim`, `training_samples` (the total dataset
sample count), `accuracy` and `classes`, and `classes` is always
`["safe", "jailbreak"]` in that order, matching the label encoding
(adversarial entries are labeled 1 and `"jailbreak"` sits at index 1). -/
theorem metadata_record_fields (jail safe : List String) (thr acc : ℚ) :
    (metadataRecord thr (assembleTexts jail safe).length acc).map Prod.fst =
      ["threshold", "embedding_model", "embedding_dim", "training_samples",
        "accuracy", "classes"] ∧
    List.lookup "classes" (metadataRecord thr (assembleTexts jail safe).length acc) =
      some (JVal.strList ["safe", "jailbreak"]) ∧
    List.lookup "training_samples" (metadataRecord thr (assembleTexts jail safe).length acc) =
      some (JVal.int (jail.length + safe.length)) ∧
    ["safe", "jailbreak"].getD 0 "" = "safe" ∧
    ["safe", "jailbreak"].getD 1 "" = "jailbreak" ∧
    (∀ i, i < jail.length →
      ["safe", "jailbreak"].getD ((assembleLabels jail safe).getD i 2) "" = "jailbreak") ∧
    (∀ i, jail.length ≤ i → i < jail.length + safe.length →
      ["safe", "jailbreak"].getD ((assembleLabels jail safe).getD i 2) "" = "safe") := by
  have hlen : (assembleTexts jail safe).length = jail.length + safe.length := by
    simp [assembleTexts]
  refine ⟨rfl, rfl, ?_, rfl, rfl, ?_, ?_⟩
  · rw [hlen]; rfl
  · intro i hi; rw [assembleLabels_getD_left jail safe hi 2]; rfl
  · intro i hi1 hi2; rw [assembleLabels_getD_right jail safe hi1 hi2 2]; rfl

/-- Witness for C4 at the concrete corpora `["a"]`, `["b"]`. -/
theorem metadata_record_fields_witness :
    ["safe", "jailbreak"].getD ((assembleLabels ["a"] ["b"]).getD 0 2) "" = "jailbreak" :=
  (metadata_record_fields ["a"] ["b"] 0 0).2.2.2.2.2.1 0 (by simp)

/-- Claim C5: the accuracy stored in the metadata is computed from the
default 0.5 cutoff (`classifier.predict`), not from the calibrated
threshold; there are runs (a concrete instance is exhibited) where a
non-0.5 threshold gives a different accuracy on the same test data. -/
theorem recorded_accuracy_default_cutoff (jail safe : List String) (thr : ℚ)
    (yTest : List Nat) (yProb : List ℚ) :
    List.lookup "accuracy"
        (metadataRecord thr (assembleTexts jail safe).length (recordedAccuracy yTest yProb)) =
      some (JVal.num (accuracyScore yTest (predictAt (1 / 2) yProb))) ∧
    predictDefault yProb = predictAt (1 / 2) yProb ∧
    ∃ yT : List Nat, ∃ yP : List ℚ, ∃ t : ℚ, t ≠ 1 / 2 ∧
      accuracyScore yT (predictAt (1 / 2) yP) ≠ accuracyScore yT (predictAt t yP) := by
  refine ⟨rfl, rfl, ⟨[1], [3 / 5], 7 / 10, by norm_num, ?_⟩⟩
  have h1 : predictAt (1 / 2) [(3 / 5 : ℚ)] = [1] := by
    norm_num [predictAt]
  have h2 : predictAt (7 / 10) [(3 / 5 : ℚ)] = [0] := by
    norm_num [predictAt]
  rw [h1, h2]
  norm_num [accuracyScore]

/-- Witness for C5 at the concrete probability list `[3/5]`. -/
theorem recorded_accuracy_default_cutoff_witness :
    predictDefault [(3 / 5 : ℚ)] = predictAt (1 / 2) [(3 / 5 : ℚ)] :=
  (recorded_accuracy_default_cutoff ["a"] ["b"] 0 [1] [(3 / 5 : ℚ)]).2.1

/-- Claim C6: a smoke-test example is reported BLOCKED exactly when its
predicted probability strictly exceeds the calibrated threshold (equality
yields SAFE/accept), and the smoke test persists nothing: the files saved
by the run do not depend on the smoke-test results. -/
theorem smoke_decision_rule_not_persisted (p thr : ℚ) (size : Nat)
    (probs1 probs2 : List ℚ) :
    (smokeStatus p thr = "BLOCKED" ↔ thr < p) ∧
    smokeStatus thr thr = "SAFE" ∧
    savedFiles (runEvents size probs1 thr) = savedFiles (runEvents size probs2 thr) ∧
    savedFiles (runEvents size probs1 thr) = ["classifier.onnx", "metadata.json"] ∧
    Event.printLine "TRAINING COMPLETE" ∈ runEvents size probs1 thr := by
  refine ⟨?_, ?_, ?_, savedFiles_runEvents size probs1 thr, ?_⟩
  · unfold smokeStatus
    split
    · simp_all
    · simp_all
  · simp [smokeStatus]
  · rw [savedFiles_runEvents, savedFiles_runEvents]
  · unfold runEvents
    split <;> simp

/-- Witness for C6 at probability 1 and threshold 1/2. -/
theorem smoke_decision_rule_not_persisted_witness :
    smokeStatus (1 / 2) (1 / 2) = "SAFE" :=
  (smoke_decision_rule_not_persisted 1 (1 / 2) 0 [] []).2.1

/-- Claim C7: when the serialized artifact exceeds the 50 KiB budget the
run emits the size warning but does not fail: the metadata write still
happens after the artifact write and the run reaches its completion
banner. -/
theorem oversize_warning_nonfatal (size : Nat) (probs : List ℚ) (thr : ℚ)
    (h : 50 * 1024 < size) :
    runEvents size probs thr =
      Event.saveFile "classifier.onnx" :: Event.warnSize ::
        Event.saveFile "metadata.json" ::
        (probs.map (fun p => Event.printLine (smokeStatus p thr)) ++
          [Event.printLine "TRAINING COMPLETE"]) ∧
    Event.warnSize ∈ runEvents size probs thr ∧
    Event.saveFile "metadata.json" ∈ runEvents size probs thr ∧
    Event.printLine "TRAINING COMPLETE" ∈ runEvents size probs thr := by
  have he : runEvents size probs thr =
      Event.saveFile "classifier.onnx" :: Event.warnSize ::
        Event.saveFile "metadata.json" ::
        (probs.map (fun p => Event.printLine (smokeStatus p thr)) ++
          [Event.printLine "TRAINING COMPLETE"]) := by
    unfold runEvents
    rw [if_pos h]
    simp
  refine ⟨he, by rw [he]; simp, by rw [he]; simp, by rw [he]; simp⟩

/-- Witness for C7 with a 60000-byte artifact. -/
theorem oversize_warning_nonfatal_witness :
    Event.warnSize ∈ runEvents 60000 [] 0 :=
  (oversize_warning_nonfatal 60000 [] 0 (by norm_num)).2.1

/-- Claim C1: whenever the predicted probabilities lie in [0, 1] (as
probabilities do), the calibrated threshold lies in [0, 1]; and whenever
the F1-argmax index falls outside the valid index range of the thresholds
array, the threshold defaults to the neutral value 1/2. -/
theorem calibrated_threshold_unit_range (yTrue : List Nat) (yProb : List ℚ)
    (hp : ∀ p ∈ yProb, 0 ≤ p ∧ p ≤ 1) :
    0 ≤ calibratedThreshold yTrue yProb ∧ calibratedThreshold yTrue yProb ≤ 1 ∧
    ((precisionRecallCurve yTrue yProb).2.2.length ≤
        argmaxIdx (f1Scores (precisionRecallCurve yTrue yProb).1
          (precisionRecallCurve yTrue yProb).2.1) →
      calibratedThreshold yTrue yProb = 1 / 2) := by
  unfold calibratedThreshold
  by_cases h : argmaxIdx (f1Scores (precisionRecallCurve yTrue yProb).1
      (precisionRecallCurve yTrue yProb).2.1) < (precisionRecallCurve yTrue yProb).2.2.length
  · rw [if_pos h]
    have hmem : (precisionRecallCurve yTrue yProb).2.2.getD
        (argmaxIdx (f1Scores (precisionRecallCurve yTrue yProb).1
          (precisionRecallCurve yTrue yProb).2.1)) 0 ∈
        (precisionRecallCurve yTrue yProb).2.2 := by
      rw [List.getD_eq_getElem _ _ h]
      exact List.getElem_mem h
    have hb := hp _ (thresholds_mem yTrue yProb _ hmem)
    exact ⟨hb.1, hb.2, fun hcon => absurd h (by omega)⟩
  · rw [if_neg h]
    exact ⟨by norm_num, by norm_num, fun _ => rfl⟩

/-- Witness for C1 with labels `[1]` and probabilities `[1/2]`. -/
theorem calibrated_threshold_unit_range_witness :
    0 ≤ calibratedThreshold [1] [1 / 2] ∧ calibratedThreshold [1] [1 / 2] ≤ 1 :=
  ⟨(calibrated_threshold_unit_range [1] [1 / 2]
      (by intro p hp; rw [List.mem_singleton] at hp; subst hp; norm_num)).1,
   (calibrated_threshold_unit_range [1] [1 / 2]
      (by intro p hp; rw [List.mem_singleton] at hp; subst hp; norm_num)).2.1⟩

/-- Counterexample to C2 as stated: the precision/recall curve is NOT
computed over all distinct probability cutoffs present in the data.  With
test labels `[1, 0]` and probabilities `[9/10, 1/10]`, the distinct cutoff
`1/10` does not appear among the thresholds of the curve, because the sklearn
`precision_recall_curve` truncates the curve at the first point attaining
full recall. -/
theorem curve_omits_distinct_cutoff :
    (1 / 10 : ℚ) ∈ ([9 / 10, 1 / 10] : List ℚ) ∧
    (1 / 10 : ℚ) ∉ (precisionRecallCurve [1, 0] [9 / 10, 1 / 10]).2.2 := by
  constructor
  · norm_num
  · intro hmem
    norm_num [precisionRecallCurve, sortDesc, insertDesc, clfCurveAux,
      List.findIdx_cons] at hmem

/-- Claim C2 (amended: the cutoffs of the curve are the distinct probability
values present in the data only up to the sklearn truncation at full recall):
every curve threshold is a probability value present in the data, each
curve point is scored with F1 = 2·P·R/(P + R + 1e-8), the selected index
maximizes that F1 score, and the calibrated threshold is the cutoff at that
index (1/2 when the index is out of range). -/
theorem calibrator_argmax_selection (yTrue : List Nat) (yProb : List ℚ) :
    (∀ t ∈ (precisionRecallCurve yTrue yProb).2.2, t ∈ yProb) ∧
    (∀ i, i < (f1Scores (precisionRecallCurve yTrue yProb).1
        (precisionRecallCurve yTrue yProb).2.1).length →
      (f1Scores (precisionRecallCurve yTrue yProb).1
          (precisionRecallCurve yTrue yProb).2.1).getD i 0 =
        2 * ((precisionRecallCurve yTrue yProb).1.getD i 0 *
            (precisionRecallCurve yTrue yProb).2.1.getD i 0) /
          ((precisionRecallCurve yTrue yProb).1.getD i 0 +
            (precisionRecallCurve yTrue yProb).2.1.getD i 0 + 1 / 100000000)) ∧
    (∀ i, i < (f1Scores (precisionRecallCurve yTrue yProb).1
        (precisionRecallCurve yTrue yProb).2.1).length →
      (f1Scores (precisionRecallCurve yTrue yProb).1
          (precisionRecallCurve yTrue yProb).2.1).getD i 0 ≤
        (f1Scores (precisionRecallCurve yTrue yProb).1
            (precisionRecallCurve yTrue yProb).2.1).getD
          (argmaxIdx (f1Scores (precisionRecallCurve yTrue yProb).1
            (precisionRecallCurve yTrue yProb).2.1)) 0) ∧
    calibratedThreshold yTrue yProb =
      (if argmaxIdx (f1Scores (precisionRecallCurve yTrue yProb).1
            (precisionRecallCurve yTrue yProb).2.1) <
          (precisionRecallCurve yTrue yProb).2.2.length then
        (precisionRecallCurve yTrue yProb).2.2.getD
          (argmaxIdx (f1Scores (precisionRecallCurve yTrue yProb).1
            (precisionRecallCurve yTrue yProb).2.1)) 0
      else 1 / 2) := by
  refine ⟨thresholds_mem yTrue yProb, ?_, ?_, rfl⟩
  · intro i hi
    exact f1Scores_getD _ _ i hi
  · intro i hi
    exact getD_le_argmax _ i hi

/-- Witness for C2 (amended) with labels `[0, 1]` and probabilities
`[1/4, 3/4]`: the selected-F1 bound instantiated at index 0. -/
theorem calibrator_argmax_selection_witness :
    (f1Scores (precisionRecallCurve [0, 1] [1 / 4, 3 / 4]).1
        (precisionRecallCurve [0, 1] [1 / 4, 3 / 4]).2.1).getD 0 0 ≤
      (f1Scores (precisionRecallCurve [0, 1] [1 / 4, 3 / 4]).1
          (precisionRecallCurve [0, 1] [1 / 4, 3 / 4]).2.1).getD
        (argmaxIdx (f1Scores (precisionRecallCurve [0, 1] [1 / 4, 3 / 4]).1
          (precisionRecallCurve [0, 1] [1 / 4, 3 / 4]).2.1)) 0 :=
  (calibrator_argmax_selection [0, 1] [1 / 4, 3 / 4]).2.2.1 0 (by
    norm_num [precisionRecallCurve, f1Scores, sortDesc, insertDesc, clfCurveAux,
      List.findIdx_cons])

theorem nat_div_le_cast (m k : Nat) (hk : 0 < k) :
    ((m / k : Nat) : ℚ) ≤ (m : ℚ) / k := by
  rw [le_div_iff₀ (by exact_mod_cast hk)]
  exact_mod_cast Nat.div_mul_le_self m k

theorem cast_lt_nat_div_add_one (m k : Nat) (hk : 0 < k) :
    (m : ℚ) / k < ((m / k : Nat) : ℚ) + 1 := by
  rw [div_lt_iff₀ (by exact_mod_cast hk)]
  have key : m < (m / k + 1) * k := by
    have h1 := Nat.div_add_mod m k
    have h2 : m % k < k := Nat.mod_lt _ hk
    calc m = k * (m / k) + m % k := h1.symm
    _ < k * (m / k) + k := by omega
    _ = (m / k + 1) * k := by ring
  calc (m : ℚ) < (((m / k + 1) * k : Nat) : ℚ) := by exact_mod_cast key
  _ = (((m / k : Nat) : ℚ) + 1) * k := by push_cast; ring

/-- Claim C8: for any allocation the seeded stratified splitter can
produce, both the train subset and the test subset have jailbreak-label
proportion within 1/(subset size) of the full-dataset proportion
n1/(n0 + n1).  Class sizes are `n0` (safe) and `n1` (jailbreak); `a1` is
the number of jailbreak samples drawn into the train subset, so the test
subset receives the remaining `n1 - a1`. -/
theorem stratified_split_preserves_proportion (n0 n1 a0 a1 : Nat)
    (hTr : 0 < nTrainOf (n0 + n1)) (hTe : 0 < nTestOf (n0 + n1))
    (hA : approxModeAlloc n0 n1 (nTrainOf (n0 + n1)) a0 a1) :
    |(a1 : ℚ) / (nTrainOf (n0 + n1) : ℚ) - (n1 : ℚ) / ((n0 + n1 : Nat) : ℚ)| ≤
      1 / (nTrainOf (n0 + n1) : ℚ) ∧
    |((n1 - a1 : Nat) : ℚ) / (nTestOf (n0 + n1) : ℚ) - (n1 : ℚ) / ((n0 + n1 : Nat) : ℚ)| ≤
      1 / (nTestOf (n0 + n1) : ℚ) := by
  obtain ⟨hsum, h0lo, h0hi, h0c, h1lo, h1hi, h1c⟩ := hA
  set n := n0 + n1 with hn
  set dTr := nTrainOf n with hdTr
  set dTe := nTestOf n with hdTe
  have e1 : dTe = (n + 4) / 5 := rfl
  have e2 : dTr = n - (n + 4) / 5 := rfl
  have hnpos : 0 < n := by omega
  have hsum2 : dTr + dTe = n := by omega
  have hnQ : (0 : ℚ) < (n : ℚ) := by exact_mod_cast hnpos
  have hTrQ : (0 : ℚ) < (dTr : ℚ) := by exact_mod_cast hTr
  have hTeQ : (0 : ℚ) < (dTe : ℚ) := by exact_mod_cast hTe
  have hlow : ((n1 * dTr / n : Nat) : ℚ) ≤ (n1 : ℚ) * (dTr : ℚ) / (n : ℚ) := by
    have h := nat_div_le_cast (n1 * dTr) n hnpos
    push_cast at h
    exact h
  have hhigh : (n1 : ℚ) * (dTr : ℚ) / (n : ℚ) < ((n1 * dTr / n : Nat) : ℚ) + 1 := by
    have h := cast_lt_nat_div_add_one (n1 * dTr) n hnpos
    push_cast at h
    exact h
  have ha1lo : ((n1 * dTr / n : Nat) : ℚ) ≤ (a1 : ℚ) := by exact_mod_cast h1lo
  have ha1hi : (a1 : ℚ) ≤ ((n1 * dTr / n : Nat) : ℚ) + 1 := by exact_mod_cast h1hi
  have key : |(a1 : ℚ) - (n1 : ℚ) * (dTr : ℚ) / (n : ℚ)| ≤ 1 := by
    rw [abs_le]
    constructor <;> linarith
  constructor
  · have eq1 : (a1 : ℚ) / (dTr : ℚ) - (n1 : ℚ) / (n : ℚ) =
        ((a1 : ℚ) - (n1 : ℚ) * (dTr : ℚ) / (n : ℚ)) / (dTr : ℚ) := by
      field_simp
      ring
    rw [eq1, abs_div, abs_of_pos hTrQ]
    gcongr
  · have hcast : ((n1 - a1 : Nat) : ℚ) = (n1 : ℚ) - (a1 : ℚ) := by
      exact Nat.cast_sub h1c
    have hdTrQ : (dTr : ℚ) = (n : ℚ) - (dTe : ℚ) := by
      have h := hsum2
      have : ((dTr + dTe : Nat) : ℚ) = (n : ℚ) := by exact_mod_cast congrArg Nat.cast h
      push_cast at this
      linarith
    have eq2 : ((n1 : ℚ) - (a1 : ℚ)) / (dTe : ℚ) - (n1 : ℚ) / (n : ℚ) =
        ((n1 : ℚ) * (dTr : ℚ) / (n : ℚ) - (a1 : ℚ)) / (dTe : ℚ) := by
      rw [hdTrQ]
      field_simp
      ring
    have key2 : |(n1 : ℚ) * (dTr : ℚ) / (n : ℚ) - (a1 : ℚ)| ≤ 1 := by
      rw [abs_sub_comm]
      exact key
    rw [hcast, eq2, abs_div, abs_of_pos hTeQ]
    gcongr

/-- Witness for C8: 8 safe and 2 jailbreak samples, train draw (6, 2). -/
theorem stratified_split_preserves_proportion_witness :
    |((2 : Nat) : ℚ) / (nTrainOf (8 + 2) : ℚ) - ((2 : Nat) : ℚ) / ((8 + 2 : Nat) : ℚ)| ≤
      1 / (nTrainOf (8 + 2) : ℚ) :=
  (stratified_split_preserves_proportion 8 2 6 2 (by decide) (by decide)
    (by unfold approxModeAlloc; decide)).1

/-- Claim C9: two runs on the same corpus, seed and embedding outputs (and
the same seeded splitter/trainer, i.e. the same library code) produce
identical exported thresholds and identical model parameters. -/
theorem pipeline_deterministic (splitFn : Nat → List Nat → List Nat × List Nat)
    (fitFn : Nat → List (List ℚ) → List Nat → LRParams)
    (probFn : LRParams → List ℚ → ℚ)
    (jail safe : List String) (seed : Nat) (embed : String → List ℚ)
    (o1 o2 : RunOutputs)
    (h1 : RunSpec splitFn fitFn probFn jail safe seed embed o1)
    (h2 : RunSpec splitFn fitFn probFn jail safe seed embed o2) :
    o1.threshold = o2.threshold ∧ o1.params = o2.params := by
  obtain ⟨hp1, ht1⟩ := h1
  obtain ⟨hp2, ht2⟩ := h2
  exact ⟨ht1.trans ht2.symm, hp1.trans hp2.symm⟩

/-- Witness for C9: a concrete run specification, instantiated twice. -/
theorem pipeline_deterministic_witness :
    (⟨calibratedThreshold [0] [1 / 2], ⟨[], 0⟩⟩ : RunOutputs).threshold =
      (⟨calibratedThreshold [0] [1 / 2], ⟨[], 0⟩⟩ : RunOutputs).threshold :=
  (pipeline_deterministic (fun _ _ => ([0], [1])) (fun _ _ _ => ⟨[], 0⟩)
    (fun _ _ => 1 / 2) ["a"] ["b"] 42 (fun _ => [0])
    ⟨calibratedThreshold [0] [1 / 2], ⟨[], 0⟩⟩
    ⟨calibratedThreshold [0] [1 / 2], ⟨[], 0⟩⟩
    ⟨rfl, rfl⟩ ⟨rfl, rfl⟩).1

end AIGuard
